import Mathlib

/-!
Verification of the mport package-manager core against its specification.

The C sources are shallowly embedded: C strings become NUL-free character
lists, pointer walks become list recursion (reads past the terminator
yield character code 0, matching a zero-filled buffer), machine integers
become unbounded Int (the claims exercise values far below overflow), and
the SQLite store becomes an explicit record of row lists with a
transaction layer.
-/

namespace Mport

/-- Reading a byte of a NUL-terminated buffer: past the end we see the
terminator, modelled as character code 0. -/
def charAt (s : List Char) (i : Nat) : Char := s.getD i (Char.ofNat 0)

/-- The space set recognised by strtol (C isspace in the default locale). -/
def isSpaceC (c : Char) : Bool :=
  c = ' ' || c = '\t' || c = '\n' || c.toNat = 11 || c.toNat = 12 || c = '\r'

/-- Numeric value of a decimal digit character. -/
def digitVal (c : Char) : Nat := c.toNat - 48

/-- Consume a maximal run of decimal digits, accumulating the value;
returns the value and the unread remainder (strtol's digit loop). -/
def readNumAux : List Char → Nat → Nat × List Char
  | c :: rest, acc =>
      if c.isDigit then readNumAux rest (acc * 10 + digitVal c) else (acc, c :: rest)
  | [], acc => (acc, [])

/-- Two's-complement narrowing of a long to an int: every (int) cast of
a strtol result and every int token assignment in version_cmp.c wraps
modulo 2^32 on the LP64 target (long 64 bits, int 32 bits). -/
def toIntC (v : Int) : Int := (v + 2147483648) % 4294967296 - 2147483648

/-- strtol saturates at the long range on overflow (it returns LONG_MAX
or LONG_MIN and sets ERANGE). -/
def clampLong (v : Int) : Int :=
  max (-9223372036854775808) (min 9223372036854775807 v)

/-- The int value that (int) strtol yields for an unsigned decimal run:
the long result saturates at LONG_MAX, then the cast wraps to int. -/
def intOfDigits (n : Nat) : Int := toIntC (clampLong n)

/-- The int value of one character read through the char pointer in
cmp_versions: char is signed on the target, so bytes at or above 128
read negative. -/
def signedCharVal (c : Char) : Int := ((c.toNat : Int) + 128) % 256 - 128

/-- Model of (int) strtol(p, NULL, 10): skip whitespace, optional sign,
then a maximal decimal run (0 when no digits follow); the long result
saturates at the long range and the int cast narrows modulo 2^32. -/
def strtolM (l : List Char) : Int :=
  match l.dropWhile (fun c => isSpaceC c) with
  | '-' :: rest => toIntC (clampLong (-((readNumAux rest 0).1 : Int)))
  | '+' :: rest => intOfDigits (readNumAux rest 0).1
  | rest => intOfDigits (readNumAux rest 0).1

/-- rindex: index of the last occurrence of a character, if any. -/
def lastIdx (c : Char) : List Char → Option Nat
  | [] => none
  | x :: xs =>
      match lastIdx c xs with
      | some i => some (i + 1)
      | none => if x = c then some 0 else none

/-- The struct version of version_cmp.c: base string, revision, epoch. -/
structure CVersion where
  version : List Char
  revision : Int
  epoch : Int
deriving DecidableEq, Repr

/-- Fold the present cut positions down to the smallest one. -/
def cutMin : List (Option Nat) → Nat → Nat
  | [], n => n
  | some i :: rest, n => cutMin rest (min i n)
  | none :: rest, n => cutMin rest n

/-- parse_version from version_cmp.c.  rindex positions for underscore,
comma, less-than and greater-than are taken on the original string; the
less-than and greater-than bytes are overwritten with NUL, the epoch is
read from after the last comma and the revision from after the last
underscore, and the version body is the prefix before the first byte that
was overwritten.  (Writing NUL at a cut position never changes what strtol
reads, because NUL and the cut characters are equally non-digit
terminators, so the numeric fields are read off the original string.) -/
def parse_version (s : List Char) : CVersion :=
  let lt := lastIdx '<' s
  let gt := lastIdx '>' s
  let comma := lastIdx ',' s
  let und := lastIdx '_' s
  let epoch : Int :=
    match comma with
    | none => 0
    | some i => strtolM (s.drop (i + 1))
  let revision : Int :=
    match und with
    | none => 0
    | some i => strtolM (s.drop (i + 1))
  { version := s.take (cutMin [lt, gt, comma, und] s.length),
    revision := revision, epoch := epoch }

/-- cmp_ints from version_cmp.c. -/
def cmpInts (a b : Int) : Int := if a = b then 0 else if a < b then -1 else 1

/-- Skip a run of '.' and '+' characters. -/
def skipDots : List Char → List Char
  | c :: rest => if c = '.' || c = '+' then skipDots rest else c :: rest
  | [] => []

/-- One step of the lockstep walk in cmp_versions: on a non-exhausted
side skip '.'/'+' runs, then take a maximal decimal run as an
int-narrowed number ((int) strtol) when a digit follows, otherwise one
character as its signed char value ((int) *a); an exhausted side
contributes token 0 and stays exhausted. -/
def readTok : List Char → Int × List Char
  | [] => (0, [])
  | c0 :: rest0 =>
      match skipDots (c0 :: rest0) with
      | [] => (0, [])
      | c :: rest =>
          if c.isDigit then
            let p := readNumAux (c :: rest) 0
            (intOfDigits p.1, p.2)
          else (signedCharVal c, rest)

/-- The while loop of cmp_versions, fuelled for structural recursion;
the wrapper below always supplies enough fuel for the loop to run to
completion. -/
def cmpVersionsF : Nat → List Char → List Char → Int
  | 0, _, _ => 0
  | fuel + 1, a, b =>
      if a = [] && b = [] then 0
      else
        let pa := readTok a
        let pb := readTok b
        let r := cmpInts pa.1 pb.1
        if r = 0 then cmpVersionsF fuel pa.2 pb.2 else r

/-- cmp_versions from version_cmp.c. -/
def cmp_versions (a b : List Char) : Int :=
  cmpVersionsF (a.length + b.length + 1) a b

/-- mport_version_cmp: compare epochs, then bases, then revisions. -/
def mport_version_cmp (astr bstr : List Char) : Int :=
  let a := parse_version astr
  let b := parse_version bstr
  let r1 := cmpInts a.epoch b.epoch
  if r1 = 0 then
    let r2 := cmp_versions a.version b.version
    if r2 = 0 then cmpInts a.revision b.revision else r2
  else r1

/-- Tokenizer for the specification's reference base comparison: the
whole token sequence of one base string, fuelled (the wrapper supplies
length-plus-one fuel, which always suffices). -/
def specTokensF : Nat → List Char → List Int
  | 0, _ => []
  | fuel + 1, l =>
      match skipDots l with
      | [] => []
      | c :: rest =>
          if c.isDigit then
            let p := readNumAux (c :: rest) 0
            intOfDigits p.1 :: specTokensF fuel p.2
          else signedCharVal c :: specTokensF fuel rest

/-- Token sequence of a base string, per the specification's walk. -/
def specTokens (l : List Char) : List Int := specTokensF (l.length + 1) l

/-- Pad a token sequence with zero tokens up to the given length. -/
def padTo (n : Nat) (l : List Int) : List Int :=
  l ++ List.replicate (n - l.length) 0

/-- Lexicographic comparison of two token sequences of equal length: the
first non-equal pair decides. -/
def cmpLex : List Int → List Int → Int
  | x :: xs, y :: ys =>
      let r := cmpInts x y
      if r = 0 then cmpLex xs ys else r
  | _, _ => 0

/-- Compare two token sequences position by position, the shorter padded
with zero tokens; the first non-equal pair decides. -/
def cmpPadded (xs ys : List Int) : Int :=
  cmpLex (padTo (max xs.length ys.length) xs) (padTo (max xs.length ys.length) ys)

/-- Reference comparison for the amended claim C2: the same parse as the
source (cut positions located on the original string, truncation at the
last less-than and greater-than, epoch and revision read from after the
last comma and underscore), with the base comparison expressed as the
specification describes it: tokenize both bases, pad the shorter with
zero tokens, first non-equal pair decides. -/
def refVersionCmp (astr bstr : List Char) : Int :=
  let a := parse_version astr
  let b := parse_version bstr
  let r1 := cmpInts a.epoch b.epoch
  if r1 = 0 then
    let r2 := cmpPadded (specTokens a.version) (specTokens b.version)
    if r2 = 0 then cmpInts a.revision b.revision else r2
  else r1

/-- The claim's literal parse: a comma suffix sets the epoch, an
underscore suffix sets the revision, and any less-than or greater-than
inside the string truncates it there - so no such character survives
into the base. -/
def claimParse (s : List Char) : CVersion :=
  let p1 : Int × List Char :=
    match lastIdx ',' s with
    | some i => (strtolM (s.drop (i + 1)), s.take i)
    | none => (0, s)
  let p2 : Int × List Char :=
    match lastIdx '_' p1.2 with
    | some i => (strtolM (p1.2.drop (i + 1)), p1.2.take i)
    | none => (0, p1.2)
  { version := p2.2.takeWhile (fun c => !(c = '<' || c = '>')),
    revision := p2.1, epoch := p1.1 }

/-- The reference comparison exactly as claim C2 states it, built on the
claim's literal parse. -/
def claimVersionCmp (astr bstr : List Char) : Int :=
  let a := claimParse astr
  let b := claimParse bstr
  let r1 := cmpInts a.epoch b.epoch
  if r1 = 0 then
    let r2 := cmpPadded (specTokens a.version) (specTokens b.version)
    if r2 = 0 then cmpInts a.revision b.revision else r2
  else r1

/-- The scanning loop of mport_version_require_check: the first slot
keeps the first occurrence of the character, the second slot is
overwritten by every later occurrence (so it ends at the last one). -/
def occSlots (c : Char) (s : List Char) : Option Nat × Option Nat :=
  (List.range s.length).foldl
    (fun acc i =>
      if charAt s i = c then
        match acc.1 with
        | none => (some i, acc.2)
        | some _ => (acc.1, some i)
      else acc)
    (none, none)

/-- The C index value of an occurrence slot: -1 when unset. -/
def idxI : Option Nat → Int
  | none => -1
  | some i => (i : Int)

/-- Read the C string starting at byte j of a buffer in which the bytes
listed in nulls have been overwritten with NUL: the characters from j up
to the first overwritten position (or the end). -/
def cstrFrom (s : List Char) (nulls : List Nat) (j : Nat) : List Char :=
  (((List.range s.length).drop j).takeWhile (fun i => !(nulls.contains i))).map
    (fun i => charAt s i)

/-- One bound test in the multi-requirement ladder: a NUL is written at
position p (the operator), then the baseline is compared against the
string starting at p+1, or p+2 with non-strict comparison when an equals
sign follows. -/
def ladderStep (baseline require : List Char) (p : Nat) (lessKind : Bool) : Int :=
  if charAt require (p + 1) = '=' then
    if lessKind then
      if mport_version_cmp baseline (require.drop (p + 2)) ≤ 0 then 0 else -1
    else
      if mport_version_cmp baseline (require.drop (p + 2)) ≥ 0 then 0 else -1
  else
    if lessKind then
      if mport_version_cmp baseline (require.drop (p + 1)) < 0 then 0 else -1
    else
      if mport_version_cmp baseline (require.drop (p + 1)) > 0 then 0 else -1

/-- The multi-bound branch of mport_version_require_check: the first
ladder checks the second bound (writing one NUL into the working copy),
then the second block re-checks the string after greater[0] (only when
that index is positive) or after less[0], without equals handling, on
the buffer that already carries the ladder's NUL. -/
def multiRet (baseline require : List Char) (g0 g1 l0 l1 : Option Nat) : Int :=
  let step1 : Int × Option Nat :=
    if idxI l1 > 0 then
      match l1 with
      | some p => (ladderStep baseline require p true, some p)
      | none => (0, none)
    else if idxI l0 > idxI g0 then
      match l0 with
      | some p => (ladderStep baseline require p true, some p)
      | none => (0, none)
    else if idxI g1 > 0 then
      match g1 with
      | some p => (ladderStep baseline require p false, some p)
      | none => (0, none)
    else if idxI g0 > idxI l0 then
      match g0 with
      | some p => (ladderStep baseline require p false, some p)
      | none => (0, none)
    else (0, none)
  if step1.1 = -1 then -1
  else
    let nulls1 : List Nat := match step1.2 with | some p => [p] | none => []
    if idxI g0 > 0 then
      match g0 with
      | some p =>
          if mport_version_cmp baseline (cstrFrom require (p :: nulls1) (p + 1)) > 0
          then 0 else -1
      | none => step1.1
    else if idxI l0 > 0 then
      match l0 with
      | some p =>
          if mport_version_cmp baseline (cstrFrom require (p :: nulls1) (p + 1)) < 0
          then 0 else -1
      | none => step1.1
    else step1.1

/-- mport_version_require_check from version_cmp.c: 0 when the baseline
meets the requirement, -1 when it does not, 1 (MPORT_ERR_FATAL) on a
malformed requirement. -/
def mport_version_require_check (baseline require : List Char) : Int :=
  if require.length < 2 then 1
  else
    let g := occSlots '>' require
    let l := occSlots '<' require
    let e := occSlots '=' require
    if g.1 = none ∧ l.1 = none ∧ e.1 = none then 1
    else if g.2.isSome || l.2.isSome || e.2.isSome || (g.1.isSome && l.1.isSome) then
      multiRet baseline require g.1 g.2 l.1 l.2
    else
      if charAt require 0 = '<' then
        if charAt require 1 = '=' then
          if mport_version_cmp baseline (require.drop 2) ≤ 0 then 0 else -1
        else
          if mport_version_cmp baseline (require.drop 1) < 0 then 0 else -1
      else if charAt require 0 = '>' then
        if charAt require 1 = '=' then
          if mport_version_cmp baseline (require.drop 2) ≥ 0 then 0 else -1
        else
          if mport_version_cmp baseline (require.drop 1) > 0 then 0 else -1
      else 1

/-! Error taxonomy (mport.h) and the exit of main (mport.c): the process
ends with exit(resultCode), resultCode being an mport error code. -/

def MPORT_OK : Int := 0

def MPORT_ERR_FATAL : Int := 1

def MPORT_ERR_WARN : Int := 2

/-- main in mport.c finishes with exit(resultCode). -/
def mainExitCode (resultCode : Int) : Int := resultCode

/-! Metadata-store queries (pkgmeta.c).  A row is identified by the
fields the claims touch; the ORDER BY clauses only permute rows and are
omitted, as no claim concerns row order. -/

/-- A row of the packages table (the columns the claims read). -/
structure PkgRow where
  pkg : String
  version : String
  locked : Int
  automatic : Int
deriving DecidableEq, Repr

/-- A row of the depends table. -/
structure DependRow where
  pkg : String
  depend_pkgname : String
deriving DecidableEq, Repr

/-- The live metadata store as seen by pkgmeta.c. -/
structure MasterDB where
  packages : List PkgRow
  depends : List DependRow
deriving DecidableEq, Repr

/-- mport_pkgmeta_list: count the packages table, NULL out-parameter and
MPORT_OK when the count is zero, otherwise the populated vector. -/
def mport_pkgmeta_list (db : MasterDB) : Option (List PkgRow) × Int :=
  if db.packages.length = 0 then (none, MPORT_OK)
  else (some db.packages, MPORT_OK)

/-- mport_pkgmeta_list_locked: the same pattern over locked = 1 rows. -/
def mport_pkgmeta_list_locked (db : MasterDB) : Option (List PkgRow) × Int :=
  let rows := db.packages.filter (fun p => p.locked = 1)
  if rows.length = 0 then (none, MPORT_OK) else (some rows, MPORT_OK)

/-- mport_pkgmeta_search_master: the same pattern with a caller-supplied
WHERE predicate; the count query and the row query share the predicate. -/
def mport_pkgmeta_search_master (db : MasterDB) (whereP : PkgRow → Bool) :
    Option (List PkgRow) × Int :=
  let rows := db.packages.filter whereP
  if rows.length = 0 then (none, MPORT_OK) else (some rows, MPORT_OK)

/-- mport_pkgmeta_get_downdepends: the count comes from the depends
table alone, while the vector comes from the join of depends with
packages, one row per matching pair. -/
def mport_pkgmeta_get_downdepends (db : MasterDB) (name : String) :
    Option (List PkgRow) × Int :=
  let count := (db.depends.filter (fun d => d.pkg = name)).length
  if count = 0 then (none, MPORT_OK)
  else
    (some ((db.depends.filter (fun d => d.pkg = name)).flatMap
      (fun d => db.packages.filter (fun p => p.pkg = d.depend_pkgname))), MPORT_OK)

/-- mport_pkgmeta_get_updepends: count over edges pointing at the
package, vector from the join against the depending packages. -/
def mport_pkgmeta_get_updepends (db : MasterDB) (name : String) :
    Option (List PkgRow) × Int :=
  let count := (db.depends.filter (fun d => d.depend_pkgname = name)).length
  if count = 0 then (none, MPORT_OK)
  else
    (some ((db.depends.filter (fun d => d.depend_pkgname = name)).flatMap
      (fun d => db.packages.filter (fun p => p.pkg = d.pkg))), MPORT_OK)

/-! Update of installed packages (update_primative.c). -/

/-- In-memory package meta (the fields the update and autoremove claims
touch; prefixPath stands for the C field named prefix, which is a
reserved word in Lean). -/
structure PkgMeta where
  name : String
  version : String
  prefixPath : String
  automatic : Int
  locked : Int
  install_date : Int
deriving DecidableEq, Repr

def MPORT_EXPLICIT : Int := 0

def MPORT_AUTOMATIC : Int := 1

def MPORT_UNLOCKED : Int := 0

def MPORT_LOCKED : Int := 1

/-- The body of the per-package loop of mport_update_primative combined
with set_prefix_to_installed: install_date is stamped, automatic and
locked are taken over from the already-installed row when one exists
(mport_pkgmeta_search_master by name), a locked package is skipped, the
preconditions are checked (modelled by an oracle), and the prefix is
replaced by the installed row's prefix; the result is the package meta
handed to mport_bundle_read_update_pkg, or none when the package is
skipped.  mport_lock_islocked is not among the sources; modelled from
the spec: locked is the boolean lock attribute of the record. -/
def updatePrimativePkg (now : Int) (installed : String → Option PkgMeta)
    (precheckOk : Bool) (pkg : PkgMeta) : Option PkgMeta :=
  let pkg1 := { pkg with install_date := now }
  let pkg2 :=
    match installed pkg1.name with
    | some prior => { pkg1 with automatic := prior.automatic, locked := prior.locked }
    | none => pkg1
  if pkg2.locked = MPORT_LOCKED then none
  else if !precheckOk then none
  else
    match installed pkg2.name with
    | some prior =>
        some (if pkg2.prefixPath = prior.prefixPath then pkg2
              else { pkg2 with prefixPath := prior.prefixPath })
    | none => none

/-! Autoremove (default_cbs.c). -/

/-- mport_autoremove with the spec-mandated repair of the uninitialized
start pointer: the loop iterates the vector actually returned by
mport_pkgmeta_get_updepends (the NULL no-rows answer being the empty
list).  For each installed package that is not EXPLICIT, if no direct
up-dependent is EXPLICIT, every member of the up-depends vector is
passed to mport_delete_primative; the result lists those names in call
order. -/
def mport_autoremove (pkgs : List PkgMeta) (updeps : String → List PkgMeta) :
    List String :=
  pkgs.foldl
    (fun deleted p =>
      if p.automatic = MPORT_EXPLICIT then deleted
      else
        let ds := updeps p.name
        if ds.any (fun d => d.automatic = MPORT_EXPLICIT) then deleted
        else deleted ++ ds.map (fun d => d.name))
    []

/-- Whether a package has some chain of up-depends edges reaching an
EXPLICIT package, with fuel bounding the chain length (the claim's
notion of an EXPLICIT transitive ancestor). -/
def hasExplicitAncestor (updeps : String → List PkgMeta) : Nat → PkgMeta → Bool
  | 0, _ => false
  | fuel + 1, p =>
      (updeps p.name).any
        (fun q => q.automatic = MPORT_EXPLICIT || hasExplicitAncestor updeps fuel q)

/-- The deletion set claim C5 requires of autoremove: the AUTOMATIC
packages with no EXPLICIT transitive ancestor. -/
def autoremoveClaimSet (pkgs : List PkgMeta) (updeps : String → List PkgMeta) :
    List String :=
  (pkgs.filter
    (fun p => p.automatic = MPORT_AUTOMATIC
      && !(hasExplicitAncestor updeps pkgs.length p))).map (fun p => p.name)

/-! The rename-reconciliation branch of mport_upgrade (part_002 and
part_003 carry the same test). -/

/-- Actions the OriginMatch branch can perform. -/
inductive UpgAction
  | deleteOld (name : String)
  | installNew (name : String)
deriving DecidableEq, Repr

/-- The OriginMatch branch of mport_upgrade's second pass: after the
index lookup produced a replacement name, the confirmation callback is
asked, and the branch deletes the old package, installs the replacement
and adds the new name to the processed set when the callback result is
different from MPORT_OK.  Returns the actions performed and the names
added to the processed set. -/
def renameReconcile (confirmResult : Int) (oldName newName : String) :
    List UpgAction × List String :=
  if confirmResult ≠ MPORT_OK then
    ([UpgAction.deleteOld oldName, UpgAction.installNew newName], [newName])
  else ([], [])

/-! The depth-first upgrade pass mport_update_down (part_002, the
revision with the per-run index-check cache).  mport_update (mport.h:
download, then mport_update_primative) is fallible; its outcomes are an
oracle indexed by the running count of update calls.  A successful
update brings the installed version up to the index, after which the
semantic index check reports no update; a failed one is only logged by
part_002 and the run continues. -/

/-- State threaded through an upgrade run: the processed-set hash h, the
index-check cache, the successful mport_update calls in order, and the
number of mport_update calls made (successful or not). -/
structure UpdState where
  h : List String
  cache : List (String × Int)
  trace : List String
  calls : Nat
deriving DecidableEq, Repr

/-- ohash insert: a hash set keyed by the name, so inserting a present
key leaves the set unchanged. -/
def insertH (x : String) (h : List String) : List String :=
  if x ∈ h then h else x :: h

/-- mport_index_check modelled semantically: 0 (no update) once the
package has been updated in this run (or was up to date at run start),
otherwise the tri-state m0 recorded by the index at run start (1 update
available, 2 origin match).  u0 lists the packages already at their
index version when the run begins. -/
def indexCheckSem (m0 : String → Int) (u0 : List String) (st : UpdState)
    (name : String) : Int :=
  if name ∈ u0 ++ st.trace then 0 else m0 name

/-- The cache consultation wrapped around every mport_index_check call
in part_002: a hit returns the memoized value (which may be stale), a
miss queries the index and memoizes. -/
def getMatch (m0 : String → Int) (u0 : List String) (name : String)
    (st : UpdState) : Int × UpdState :=
  match st.cache.lookup name with
  | some v => (v, st)
  | none =>
      let m := indexCheckSem m0 u0 st name
      (m, { st with cache := (name, m) :: st.cache })

/-- The effect of a successful mport_update followed by the ohash insert
of the package into the processed set. -/
def doUpdate (name : String) (st : UpdState) : UpdState :=
  { st with trace := st.trace ++ [name], h := insertH name st.h }

/-- Advance the mport_update call counter. -/
def bump (st : UpdState) : UpdState := { st with calls := st.calls + 1 }

/-- One mport_update call: the oracle (indexed by the number of calls
made so far) decides whether the download and reinstall succeed.  On
success the package is recorded updated and inserted into the processed
set; on failure part_002 merely logs the error, so only the call counter
advances. -/
def tryUpdate (updOk : Nat → Bool) (name : String) (st : UpdState) :
    Bool × UpdState :=
  if updOk st.calls then (true, doUpdate name (bump st))
  else (false, bump st)

/-- The while loop over the down-depends vector inside
mport_update_down: a dependency already in the processed set is skipped;
otherwise the function recurses into it (rec), then consults the cache /
index again and, on a non-zero match, calls mport_update on the
dependency once more, inserting it into the processed set only when that
call succeeds (on failure the loop logs and moves on). -/
def depLoop (m0 : String → Int) (u0 : List String) (updOk : Nat → Bool)
    (rec : String → UpdState → Option (Nat × UpdState)) :
    List String → Nat → UpdState → Option (Nat × UpdState)
  | [], acc, st => some (acc, st)
  | dep :: rest, acc, st =>
      if dep ∈ st.h then depLoop m0 u0 updOk rec rest acc st
      else
        match rec dep st with
        | none => none
        | some (r, st1) =>
            let p := getMatch m0 u0 dep st1
            if p.1 ≠ 0 then
              let q := tryUpdate updOk dep p.2
              if q.1 then depLoop m0 u0 updOk rec rest (acc + r + 1) q.2
              else depLoop m0 u0 updOk rec rest (acc + r) q.2
            else depLoop m0 u0 updOk rec rest (acc + r) p.2

/-- mport_update_down (part_002): with no down-depends, check the
processed set, then the (cached) index, and call mport_update (which may
fail; only a success is recorded and inserted); with down-depends, run
the dependency loop first and only then update the package itself - the
package is updated even when a dependency's update failed, part_002
having only logged that failure.  The fuel bounds the recursion depth: a
cyclic dependency graph exhausts it and yields none, matching the
specification's "cycles are a data error". -/
def updateDown (deps : String → List String) (m0 : String → Int)
    (u0 : List String) (updOk : Nat → Bool) :
    Nat → String → UpdState → Option (Nat × UpdState)
  | 0, _, _ => none
  | fuel + 1, pack, st =>
      if deps pack = [] then
        if pack ∈ st.h then some (0, st)
        else
          let p := getMatch m0 u0 pack st
          if p.1 ≠ 0 then
            let q := tryUpdate updOk pack p.2
            if q.1 then some (1, q.2) else some (0, q.2)
          else some (0, p.2)
      else
        match depLoop m0 u0 updOk (fun d s => updateDown deps m0 u0 updOk fuel d s)
            (deps pack) 0 st with
        | none => none
        | some (r, st1) =>
            let p := getMatch m0 u0 pack st1
            if p.1 ≠ 0 then
              let q := tryUpdate updOk pack p.2
              if q.1 then some (r + 1, q.2) else some (r, q.2)
            else some (r, p.2)

/-- The ordering property of claim C7 over a finished trace: whenever a
package p was updated, every down-dependency of p that needed an upgrade
at run start had already been updated (in this run, or was already
current at run start). -/
def orderOK (deps : String → List String) (m0 : String → Int)
    (u0 : List String) (trace : List String) : Prop :=
  ∀ t1 p t2, trace = t1 ++ p :: t2 →
    ∀ d ∈ deps p, m0 d ≠ 0 → d ∈ u0 ++ t1

/-- The invariant threaded through an upgrade run: every processed name
was already upgraded (or current at run start), a cached 0 only ever
covers an upgraded or up-to-date package, the trace so far respects the
ordering property, and the processed set holds no duplicates. -/
def UpdInv (deps : String → List String) (m0 : String → Int) (u0 : List String)
    (st : UpdState) : Prop :=
  (∀ x ∈ st.h, x ∈ u0 ++ st.trace) ∧
    (∀ nv ∈ st.cache, nv.2 = 0 → nv.1 ∈ u0 ++ st.trace ∨ m0 nv.1 = 0) ∧
    orderOK deps m0 u0 st.trace ∧ st.h.Nodup

/-- Postcondition of one mport_update_down call: the invariant is kept,
the trace only grows, and both the package itself and each of its
down-depends that needed an upgrade are upgraded afterwards. -/
def UpdPost (deps : String → List String) (m0 : String → Int) (u0 : List String)
    (pack : String) (st st' : UpdState) : Prop :=
  UpdInv deps m0 u0 st' ∧ (∃ Δ, st'.trace = st.trace ++ Δ) ∧
    (m0 pack ≠ 0 → pack ∈ u0 ++ st'.trace) ∧
    (∀ d ∈ deps pack, m0 d ≠ 0 → d ∈ u0 ++ st'.trace)

/-! Phase 2 of the installer, do_actual_install (part_005). -/

/-- The live-database rows phase 2 touches; rows are keyed by the data
that identifies them for the claim. -/
structure LiveDB where
  packages : List String
  depends : List (String × String)
  categories : List (String × String)
  conflicts : List (String × String)
  assets : List (String × Nat)
deriving DecidableEq, Repr

/-- A SQLite connection: the committed database plus the view of an open
write transaction, if one is open. -/
structure DBConn where
  committed : LiveDB
  txn : Option LiveDB
deriving DecidableEq, Repr

/-- Execute a mutation on the connection: inside an open transaction it
changes only the transaction's view, otherwise (autocommit mode) it
changes the committed database directly. -/
def execDB (f : LiveDB → LiveDB) (c : DBConn) : DBConn :=
  match c.txn with
  | some t => { c with txn := some (f t) }
  | none => { c with committed := f c.committed }

/-- BEGIN TRANSACTION. -/
def beginTxn (c : DBConn) : DBConn := { c with txn := some c.committed }

/-- COMMIT. -/
def commitTxn (c : DBConn) : DBConn :=
  match c.txn with
  | some t => { committed := t, txn := none }
  | none => c

/-- Closing the connection discards an open, uncommitted transaction
(SQLite rolls it back); the claim's "live database afterwards". -/
def closeConn (c : DBConn) : LiveDB := c.committed

/-- The incoming package: its name, the stub rows bulk-copied by
create_depends / create_categories / create_conflicts, and the number of
asset-list entries the asset loop walks. -/
structure IncomingPkg where
  name : String
  stubDepends : List String
  stubCategories : List String
  stubConflicts : List String
  assetCount : Nat
deriving DecidableEq, Repr

/-- create_package_row: INSERT INTO packages (status defaults to dirty). -/
def insPkgRow (p : IncomingPkg) (db : LiveDB) : LiveDB :=
  { db with packages := db.packages ++ [p.name] }

/-- create_depends: INSERT INTO depends SELECT ... FROM stub.depends. -/
def insDepends (p : IncomingPkg) (db : LiveDB) : LiveDB :=
  { db with depends := db.depends ++ p.stubDepends.map (fun d => (p.name, d)) }

/-- create_categories: the bulk copy from stub.categories. -/
def insCategories (p : IncomingPkg) (db : LiveDB) : LiveDB :=
  { db with categories := db.categories ++ p.stubCategories.map (fun d => (p.name, d)) }

/-- create_conflicts: the bulk copy from stub.conflicts. -/
def insConflicts (p : IncomingPkg) (db : LiveDB) : LiveDB :=
  { db with conflicts := db.conflicts ++ p.stubConflicts.map (fun d => (p.name, d)) }

/-- One INSERT INTO assets row for the i-th asset entry. -/
def insAsset (p : IncomingPkg) (i : Nat) (db : LiveDB) : LiveDB :=
  { db with assets := db.assets ++ [(p.name, i)] }

/-- The asset loop of do_actual_install: each entry may fail (archive
extraction, chown/chmod, statement bind or step - the oracle decides),
in which case control reaches the ERROR label, which finalizes the
statement but issues no ROLLBACK, leaving the transaction open; on
success the entry's assets row is inserted into the open transaction. -/
def assetLoop (p : IncomingPkg) (ok : Nat → Bool) :
    Nat → Nat → DBConn → Int × DBConn
  | _, 0, c => (MPORT_OK, c)
  | i, n + 1, c =>
      if ok (8 + i) then assetLoop p ok (i + 1) n (execDB (insAsset p i) c)
      else (MPORT_ERR_FATAL, c)

/-- do_actual_install (part_005): get_file_count and the asset-list read
may fail first; then the packages row and the depends, categories and
conflicts bulk copies run in autocommit mode; then the INSERT statement
is prepared and the working directory changed; only then is BEGIN
TRANSACTION issued (its result unchecked), the asset loop run, and
COMMIT attempted.  Every failure path returns through ERROR, which never
rolls back.  The numbered oracle says which fallible operation fails. -/
def do_actual_install (p : IncomingPkg) (ok : Nat → Bool) (c : DBConn) :
    Int × DBConn :=
  if !ok 0 then (MPORT_ERR_FATAL, c)
  else if !ok 1 then (MPORT_ERR_FATAL, c)
  else if !ok 2 then (MPORT_ERR_FATAL, c)
  else
    let c1 := execDB (insPkgRow p) c
    if !ok 3 then (MPORT_ERR_FATAL, c1)
    else
      let c2 := execDB (insDepends p) c1
      if !ok 4 then (MPORT_ERR_FATAL, c2)
      else
        let c3 := execDB (insCategories p) c2
        if !ok 5 then (MPORT_ERR_FATAL, c3)
        else
          let c4 := execDB (insConflicts p) c3
          if !ok 6 then (MPORT_ERR_FATAL, c4)
          else if !ok 7 then (MPORT_ERR_FATAL, c4)
          else
            let c5 := beginTxn c4
            let r := assetLoop p ok 0 p.assetCount c5
            if r.1 ≠ MPORT_OK then r
            else if !ok (8 + p.assetCount) then (MPORT_ERR_FATAL, r.2)
            else (MPORT_OK, commitTxn r.2)

/-- The database state after k of the four autocommit inserts that
precede BEGIN TRANSACTION. -/
def applyPre (p : IncomingPkg) : Nat → LiveDB → LiveDB
  | 0, db => db
  | 1, db => insPkgRow p db
  | 2, db => insDepends p (insPkgRow p db)
  | 3, db => insCategories p (insDepends p (insPkgRow p db))
  | _, db => insConflicts p (insCategories p (insDepends p (insPkgRow p db)))

/-! Theorems. -/

/-- Claim C8 counterexample: the claim says a Warn result maps to exit
code 1 and a Fatal result to an exit code of at least 2; but main exits
with the raw result code, and mport.h defines MPORT_ERR_WARN = 2 and
MPORT_ERR_FATAL = 1, so a Warn result exits with 2 and a Fatal result
with 1. -/
theorem exit_code_claim_false :
    mainExitCode MPORT_ERR_WARN = 2 ∧ ¬ mainExitCode MPORT_ERR_WARN = 1 ∧
      mainExitCode MPORT_ERR_FATAL = 1 ∧ ¬ 2 ≤ mainExitCode MPORT_ERR_FATAL := by
  decide

/-- Claim C8 amended: the mport command exits with code 0 on success,
with code 2 when the overall result is a warning, and with code 1 for a
fatal error - main exits with the raw mport error code. -/
theorem exit_code_mapping :
    mainExitCode MPORT_OK = 0 ∧ mainExitCode MPORT_ERR_WARN = 2 ∧
      mainExitCode MPORT_ERR_FATAL = 1 := by
  decide

/-- Claim C6: in the rename-reconciliation pass the confirmation sense
is inverted - an affirmative callback answer (MPORT_OK) makes the branch
do nothing, while any non-affirmative answer triggers the delete and
install; the claim (and the specification) require the opposite. -/
theorem upgrade_rename_confirm_inverted :
    (renameReconcile MPORT_OK "mysql57-server" "mysql80-server").1 = [] ∧
      (renameReconcile MPORT_ERR_FATAL "mysql57-server" "mysql80-server").1 =
        [UpgAction.deleteOld "mysql57-server",
          UpgAction.installNew "mysql80-server"] := by
  decide

/-- Claim C5: autoremove never deletes the automatic package itself; on
a database holding one AUTOMATIC package with no up-depends the code
deletes nothing, while the claim requires exactly that package to be
deleted.  (On a pair where an automatic B depends on automatic A, the
code deletes only B - the up-dependent - and never A.) -/
theorem autoremove_deletes_wrong_set :
    mport_autoremove [⟨"A", "1.0", "/usr/local", MPORT_AUTOMATIC, MPORT_UNLOCKED, 0⟩]
        (fun _ => []) = [] ∧
      autoremoveClaimSet [⟨"A", "1.0", "/usr/local", MPORT_AUTOMATIC, MPORT_UNLOCKED, 0⟩]
        (fun _ => []) = ["A"] := by
  decide

/-- Claim C3: for the double-bound requirement the code checks only the
upper bound - the lower-bound block is guarded by greater[0] > 0, which
is false when the > operator sits at index 0 - so baseline 1.3 is
reported as satisfying >=1.4.0<1.5 although it is below the lower bound;
the spec's own two examples still evaluate as stated. -/
theorem require_check_double_bound_bug :
    mport_version_require_check "1.3".toList ">=1.4.0<1.5".toList = 0 ∧
      mport_version_cmp "1.3".toList "1.4.0".toList = -1 ∧
      mport_version_require_check "1.4.5".toList ">=1.4.0<1.5".toList = 0 ∧
      mport_version_require_check "1.5.0".toList ">=1.4.0<1.5".toList = -1 := by
  decide

/-- Claim C2 counterexample: parse_version truncates at the last < and
the last > (rindex), so an earlier < survives into the base and compares
as a code point; under the claim's reading (any < or > truncates) the
base of 1<9< is 1 and the comparison with 1 yields 0, but the code
yields 1. -/
theorem version_cmp_truncation_counterexample :
    mport_version_cmp "1<9<".toList "1".toList = 1 ∧
      claimVersionCmp "1<9<".toList "1".toList = 0 := by
  decide

/-- Claim C10 counterexample: with an installed package foo whose single
depends row points at a package that is not installed (a dangling edge,
which the specification's scenario 3 explicitly permits), the depends
count is 1 but the join produces no rows, so the query returns a
non-NULL empty vector together with MPORT_OK - the claim says an empty
vector is never produced. -/
theorem downdepends_returns_empty_vector :
    mport_pkgmeta_get_downdepends ⟨[⟨"foo", "1.0", 0, 0⟩], [⟨"foo", "bar"⟩]⟩ "foo"
      = (some [], MPORT_OK) ∧ some ([] : List PkgRow) ≠ none := by
  decide

/-- Claim C10 amended: the three package-table queries return NULL with
MPORT_OK exactly when no row matches and otherwise a non-empty vector;
the two depends queries return NULL with MPORT_OK exactly when the
depends table holds no matching edge, but when matching edges dangle the
vector can be empty though non-NULL (see the counterexample), so there
NULL-plus-success is not the only no-results signal. -/
theorem pkgvec_no_results_contract (db : MasterDB) (whereP : PkgRow → Bool)
    (name : String) :
    (mport_pkgmeta_list db = (none, MPORT_OK) ↔ db.packages = []) ∧
      ((mport_pkgmeta_list db).1 = none ∨
        ∃ v, (mport_pkgmeta_list db).1 = some v ∧ v ≠ []) ∧
      (mport_pkgmeta_list_locked db = (none, MPORT_OK) ↔
        db.packages.filter (fun p => p.locked = 1) = []) ∧
      ((mport_pkgmeta_list_locked db).1 = none ∨
        ∃ v, (mport_pkgmeta_list_locked db).1 = some v ∧ v ≠ []) ∧
      (mport_pkgmeta_search_master db whereP = (none, MPORT_OK) ↔
        db.packages.filter whereP = []) ∧
      ((mport_pkgmeta_search_master db whereP).1 = none ∨
        ∃ v, (mport_pkgmeta_search_master db whereP).1 = some v ∧ v ≠ []) ∧
      (mport_pkgmeta_get_downdepends db name = (none, MPORT_OK) ↔
        db.depends.filter (fun d => d.pkg = name) = []) ∧
      (mport_pkgmeta_get_updepends db name = (none, MPORT_OK) ↔
        db.depends.filter (fun d => d.depend_pkgname = name) = []) := by
  refine ⟨?_, ?_, ?_, ?_, ?_, ?_, ?_, ?_⟩ <;>
    simp only [mport_pkgmeta_list, mport_pkgmeta_list_locked,
      mport_pkgmeta_search_master, mport_pkgmeta_get_downdepends,
      mport_pkgmeta_get_updepends, List.length_eq_zero]
  · split <;> simp_all
  · split
    · simp
    · right; rename_i h; exact ⟨_, rfl, h⟩
  · split <;> simp_all
  · split
    · simp
    · right; rename_i h; exact ⟨_, rfl, h⟩
  · split <;> simp_all
  · split
    · simp
    · right; rename_i h; exact ⟨_, rfl, h⟩
  · split <;> simp_all
  · split <;> simp_all

/-- Witness for the C10 contract at a concrete database. -/
theorem pkgvec_no_results_contract_witness :
    (mport_pkgmeta_list ⟨[⟨"foo", "1.0", 0, 0⟩], []⟩ = (none, MPORT_OK) ↔
      ([⟨"foo", "1.0", 0, 0⟩] : List PkgRow) = []) ∧
      ((mport_pkgmeta_list ⟨[⟨"foo", "1.0", 0, 0⟩], []⟩).1 = none ∨
        ∃ v, (mport_pkgmeta_list ⟨[⟨"foo", "1.0", 0, 0⟩], []⟩).1 = some v ∧ v ≠ []) ∧
      (mport_pkgmeta_list_locked ⟨[⟨"foo", "1.0", 0, 0⟩], []⟩ = (none, MPORT_OK) ↔
        ([⟨"foo", "1.0", 0, 0⟩] : List PkgRow).filter (fun p => p.locked = 1) = []) ∧
      ((mport_pkgmeta_list_locked ⟨[⟨"foo", "1.0", 0, 0⟩], []⟩).1 = none ∨
        ∃ v, (mport_pkgmeta_list_locked ⟨[⟨"foo", "1.0", 0, 0⟩], []⟩).1 = some v ∧ v ≠ []) ∧
      (mport_pkgmeta_search_master ⟨[⟨"foo", "1.0", 0, 0⟩], []⟩ (fun p => p.pkg = "x")
          = (none, MPORT_OK) ↔
        ([⟨"foo", "1.0", 0, 0⟩] : List PkgRow).filter (fun p => p.pkg = "x") = []) ∧
      ((mport_pkgmeta_search_master ⟨[⟨"foo", "1.0", 0, 0⟩], []⟩ (fun p => p.pkg = "x")).1
          = none ∨
        ∃ v, (mport_pkgmeta_search_master ⟨[⟨"foo", "1.0", 0, 0⟩], []⟩
          (fun p => p.pkg = "x")).1 = some v ∧ v ≠ []) ∧
      (mport_pkgmeta_get_downdepends ⟨[⟨"foo", "1.0", 0, 0⟩], []⟩ "foo" = (none, MPORT_OK) ↔
        ([] : List DependRow).filter (fun d => d.pkg = "foo") = []) ∧
      (mport_pkgmeta_get_updepends ⟨[⟨"foo", "1.0", 0, 0⟩], []⟩ "foo" = (none, MPORT_OK) ↔
        ([] : List DependRow).filter (fun d => d.depend_pkgname = "foo") = []) :=
  pkgvec_no_results_contract ⟨[⟨"foo", "1.0", 0, 0⟩], []⟩ (fun p => p.pkg = "x") "foo"

/-- Claim C4: a package processed by mport_update_primative whose name
is already installed keeps the prior row's automatic flag, locked flag
and prefix - the loop copies automatic and locked from the installed
row before the lock check, and set_prefix_to_installed replaces the
incoming prefix with the installed one. -/
theorem update_primative_preserves_automatic_locked_prefix
    (now : Int) (installed : String → Option PkgMeta)
    (precheckOk : Bool) (pkg prior updated : PkgMeta)
    (hinst : installed pkg.name = some prior)
    (hrun : updatePrimativePkg now installed precheckOk pkg = some updated) :
    updated.automatic = prior.automatic ∧ updated.locked = prior.locked ∧
      updated.prefixPath = prior.prefixPath := by
  simp only [updatePrimativePkg] at hrun
  rw [hinst] at hrun
  simp only at hrun
  rw [hinst] at hrun
  split_ifs at hrun with h1 h2
  rw [Option.some_inj] at hrun
  subst hrun
  split
  · rename_i heq
    exact ⟨rfl, rfl, heq⟩
  · exact ⟨rfl, rfl, rfl⟩

/-- Witness for C4: a stub record carrying EXPLICIT and a different
prefix comes out of the update with the installed row's AUTOMATIC flag,
lock state and prefix. -/
theorem update_primative_preserves_automatic_locked_prefix_witness :
    updatePrimativePkg 99
        (fun n => if n = "foo"
          then some ⟨"foo", "1.0", "/opt", MPORT_AUTOMATIC, MPORT_UNLOCKED, 5⟩ else none)
        true ⟨"foo", "1.1", "/usr/local", MPORT_EXPLICIT, MPORT_UNLOCKED, 0⟩ =
      some ⟨"foo", "1.1", "/opt", MPORT_AUTOMATIC, MPORT_UNLOCKED, 99⟩ ∧
    (⟨"foo", "1.1", "/opt", MPORT_AUTOMATIC, MPORT_UNLOCKED, 99⟩ : PkgMeta).automatic =
        (⟨"foo", "1.0", "/opt", MPORT_AUTOMATIC, MPORT_UNLOCKED, 5⟩ : PkgMeta).automatic ∧
      (⟨"foo", "1.1", "/opt", MPORT_AUTOMATIC, MPORT_UNLOCKED, 99⟩ : PkgMeta).locked =
        (⟨"foo", "1.0", "/opt", MPORT_AUTOMATIC, MPORT_UNLOCKED, 5⟩ : PkgMeta).locked ∧
      (⟨"foo", "1.1", "/opt", MPORT_AUTOMATIC, MPORT_UNLOCKED, 99⟩ : PkgMeta).prefixPath =
        (⟨"foo", "1.0", "/opt", MPORT_AUTOMATIC, MPORT_UNLOCKED, 5⟩ : PkgMeta).prefixPath :=
  ⟨by decide,
    update_primative_preserves_automatic_locked_prefix 99
      (fun n => if n = "foo"
        then some ⟨"foo", "1.0", "/opt", MPORT_AUTOMATIC, MPORT_UNLOCKED, 5⟩ else none)
      true ⟨"foo", "1.1", "/usr/local", MPORT_EXPLICIT, MPORT_UNLOCKED, 0⟩
      ⟨"foo", "1.0", "/opt", MPORT_AUTOMATIC, MPORT_UNLOCKED, 5⟩
      ⟨"foo", "1.1", "/opt", MPORT_AUTOMATIC, MPORT_UNLOCKED, 99⟩ (by decide) (by decide)⟩

/-- Helper: inside an open transaction the asset loop never changes the
committed database, and the transaction stays open. -/
theorem assetLoop_keeps_committed (p : IncomingPkg) (ok : Nat → Bool) :
    ∀ n i c, c.txn.isSome →
      (assetLoop p ok i n c).2.committed = c.committed ∧
        (assetLoop p ok i n c).2.txn.isSome := by
  intro n
  induction n with
  | zero => intro i c h; exact ⟨rfl, h⟩
  | succ m ih =>
      intro i c h
      simp only [assetLoop]
      split
      · have htxn : (execDB (insAsset p i) c).txn.isSome := by
          unfold execDB
          cases hc : c.txn with
          | none => rw [hc] at h; simp at h
          | some t => simp [hc]
        have hcom : (execDB (insAsset p i) c).committed = c.committed := by
          unfold execDB
          cases hc : c.txn with
          | none => rw [hc] at h; simp at h
          | some t => simp [hc]
        have := ih (i + 1) (execDB (insAsset p i) c) htxn
        exact ⟨by rw [this.1, hcom], this.2⟩
      · exact ⟨rfl, h⟩

/-- Claim C1 counterexample: install foo with one depends row, one
category and one asset into an empty database, failing at the asset
extraction step; do_actual_install reports failure, yet the live
database afterwards is not the empty pre-state - the packages row
(and the depends and categories rows) were inserted in autocommit mode
before BEGIN TRANSACTION and survive. -/
theorem install_phase2_atomicity_counterexample :
    (do_actual_install ⟨"foo", ["bar"], ["cat"], [], 1⟩ (fun k => k != 8)
        ⟨⟨[], [], [], [], []⟩, none⟩).1 ≠ MPORT_OK ∧
      closeConn (do_actual_install ⟨"foo", ["bar"], ["cat"], [], 1⟩ (fun k => k != 8)
        ⟨⟨[], [], [], [], []⟩, none⟩).2 ≠ (⟨[], [], [], [], []⟩ : LiveDB) ∧
      (closeConn (do_actual_install ⟨"foo", ["bar"], ["cat"], [], 1⟩ (fun k => k != 8)
        ⟨⟨[], [], [], [], []⟩, none⟩).2).packages = ["foo"] := by
  decide

/-- Claim C1 amended: phase 2 is only partially transactional.  When
do_actual_install fails, the live database after the connection closes
equals the pre-state extended by some prefix of the four autocommit
inserts (packages row, depends, categories, conflicts bulk copies) that
run before BEGIN TRANSACTION; the asset rows of this install are never
committed (the ERROR path issues no ROLLBACK, and the open transaction
is discarded with the connection). -/
theorem install_phase2_failure_state (p : IncomingPkg) (ok : Nat → Bool) (c : DBConn)
    (htxn : c.txn = none)
    (hfail : (do_actual_install p ok c).1 ≠ MPORT_OK) :
    ∃ k, k ≤ 4 ∧ closeConn (do_actual_install p ok c).2 = applyPre p k c.committed ∧
      (closeConn (do_actual_install p ok c).2).assets = c.committed.assets := by
  obtain ⟨db, tx⟩ := c
  simp only at htxn
  subst htxn
  cases h0 : ok 0 with
  | false =>
      have hres : do_actual_install p ok ⟨db, none⟩ = (MPORT_ERR_FATAL, ⟨db, none⟩) := by
        simp [do_actual_install, h0]
      rw [hres]
      exact ⟨0, by omega, rfl, rfl⟩
  | true =>
  cases h1 : ok 1 with
  | false =>
      have hres : do_actual_install p ok ⟨db, none⟩ = (MPORT_ERR_FATAL, ⟨db, none⟩) := by
        simp [do_actual_install, h0, h1]
      rw [hres]
      exact ⟨0, by omega, rfl, rfl⟩
  | true =>
  cases h2 : ok 2 with
  | false =>
      have hres : do_actual_install p ok ⟨db, none⟩ = (MPORT_ERR_FATAL, ⟨db, none⟩) := by
        simp [do_actual_install, h0, h1, h2]
      rw [hres]
      exact ⟨0, by omega, rfl, rfl⟩
  | true =>
  cases h3 : ok 3 with
  | false =>
      have hres : do_actual_install p ok ⟨db, none⟩ =
          (MPORT_ERR_FATAL, ⟨insPkgRow p db, none⟩) := by
        simp [do_actual_install, h0, h1, h2, h3, execDB]
      rw [hres]
      exact ⟨1, by omega, rfl, rfl⟩
  | true =>
  cases h4 : ok 4 with
  | false =>
      have hres : do_actual_install p ok ⟨db, none⟩ =
          (MPORT_ERR_FATAL, ⟨insDepends p (insPkgRow p db), none⟩) := by
        simp [do_actual_install, h0, h1, h2, h3, h4, execDB]
      rw [hres]
      exact ⟨2, by omega, rfl, rfl⟩
  | true =>
  cases h5 : ok 5 with
  | false =>
      have hres : do_actual_install p ok ⟨db, none⟩ =
          (MPORT_ERR_FATAL, ⟨insCategories p (insDepends p (insPkgRow p db)), none⟩) := by
        simp [do_actual_install, h0, h1, h2, h3, h4, h5, execDB]
      rw [hres]
      exact ⟨3, by omega, rfl, rfl⟩
  | true =>
  cases h6 : ok 6 with
  | false =>
      have hres : do_actual_install p ok ⟨db, none⟩ =
          (MPORT_ERR_FATAL,
            ⟨insConflicts p (insCategories p (insDepends p (insPkgRow p db))), none⟩) := by
        simp [do_actual_install, h0, h1, h2, h3, h4, h5, h6, execDB]
      rw [hres]
      exact ⟨4, by omega, rfl, rfl⟩
  | true =>
  cases h7 : ok 7 with
  | false =>
      have hres : do_actual_install p ok ⟨db, none⟩ =
          (MPORT_ERR_FATAL,
            ⟨insConflicts p (insCategories p (insDepends p (insPkgRow p db))), none⟩) := by
        simp [do_actual_install, h0, h1, h2, h3, h4, h5, h6, h7, execDB]
      rw [hres]
      exact ⟨4, by omega, rfl, rfl⟩
  | true =>
      set d4 := insConflicts p (insCategories p (insDepends p (insPkgRow p db))) with hd4
      rcases hAL : assetLoop p ok 0 p.assetCount ⟨d4, some d4⟩ with ⟨r1, r2⟩
      have hcm := assetLoop_keeps_committed p ok p.assetCount 0 ⟨d4, some d4⟩ (by simp)
      rw [hAL] at hcm
      have hres : do_actual_install p ok ⟨db, none⟩ =
          (if r1 ≠ MPORT_OK then (r1, r2)
           else if !ok (8 + p.assetCount) then (MPORT_ERR_FATAL, r2)
           else (MPORT_OK, commitTxn r2)) := by
        simp [do_actual_install, h0, h1, h2, h3, h4, h5, h6, h7, execDB, beginTxn, hAL, hd4]
      have hcm1 : r2.committed = d4 := hcm.1
      by_cases hr1 : r1 = MPORT_OK
      · cases h8 : ok (8 + p.assetCount) with
        | true =>
            have hv : do_actual_install p ok ⟨db, none⟩ = (MPORT_OK, commitTxn r2) := by
              rw [hres]; simp [hr1, h8]
            rw [hv] at hfail
            simp at hfail
        | false =>
            have hv : do_actual_install p ok ⟨db, none⟩ = (MPORT_ERR_FATAL, r2) := by
              rw [hres]; simp [hr1, h8]
            rw [hv]
            refine ⟨4, by omega, ?_, ?_⟩
            · show r2.committed = applyPre p 4 db
              rw [hcm1, hd4]
              rfl
            · show r2.committed.assets = db.assets
              rw [hcm1, hd4]
              simp [insConflicts, insCategories, insDepends, insPkgRow]
      · have hv : do_actual_install p ok ⟨db, none⟩ = (r1, r2) := by
          rw [hres]; simp [hr1]
        rw [hv]
        refine ⟨4, by omega, ?_, ?_⟩
        · show r2.committed = applyPre p 4 db
          rw [hcm1, hd4]
          rfl
        · show r2.committed.assets = db.assets
          rw [hcm1, hd4]
          simp [insConflicts, insCategories, insDepends, insPkgRow]

/-- Witness for the amended C1 statement at a concrete failing run. -/
theorem install_phase2_failure_state_witness :
    ∃ k, k ≤ 4 ∧
      closeConn (do_actual_install ⟨"foo", ["bar"], ["cat"], [], 1⟩ (fun k => k != 8)
        ⟨⟨[], [], [], [], []⟩, none⟩).2 =
        applyPre ⟨"foo", ["bar"], ["cat"], [], 1⟩ k (⟨[], [], [], [], []⟩ : LiveDB) ∧
      (closeConn (do_actual_install ⟨"foo", ["bar"], ["cat"], [], 1⟩ (fun k => k != 8)
        ⟨⟨[], [], [], [], []⟩, none⟩).2).assets = (⟨[], [], [], [], []⟩ : LiveDB).assets :=
  install_phase2_failure_state ⟨"foo", ["bar"], ["cat"], [], 1⟩ (fun k => k != 8)
    ⟨⟨[], [], [], [], []⟩, none⟩ rfl (by decide)



theorem skipDots_length : ∀ l : List Char, (skipDots l).length ≤ l.length := by
  intro l
  induction l with
  | nil => simp [skipDots]
  | cons c rest ih =>
      simp only [skipDots]
      split
      · exact le_trans ih (by simp)
      · simp

theorem readNumAux_length : ∀ (l : List Char) acc, (readNumAux l acc).2.length ≤ l.length := by
  intro l
  induction l with
  | nil => intro acc; simp [readNumAux]
  | cons c rest ih =>
      intro acc
      simp only [readNumAux]
      split
      · exact le_trans (ih _) (by simp)
      · simp

theorem readNum_consume (c : Char) (rest : List Char) (acc : Nat)
    (hd : c.isDigit = true) :
    (readNumAux (c :: rest) acc).2.length ≤ rest.length := by
  simp only [readNumAux, hd, if_true]
  exact readNumAux_length _ _

theorem readTok_decrease : ∀ l : List Char, l ≠ [] → (readTok l).2.length < l.length := by
  intro l hl
  match l with
  | c0 :: rest0 =>
    cases hs : skipDots (c0 :: rest0) with
    | nil => simp [readTok, hs]
    | cons c rest =>
        have hlen : rest.length + 1 ≤ rest0.length + 1 := by
          have := skipDots_length (c0 :: rest0)
          rw [hs] at this
          simpa using this
        by_cases hd : c.isDigit = true
        · have h1 := readNum_consume c rest 0 hd
          simp [readTok, hs, hd]
          omega
        · simp [readTok, hs, hd]
          omega

theorem specTokensF_irrel : ∀ n m (l : List Char), l.length < n → l.length < m →
    specTokensF n l = specTokensF m l := by
  intro n
  induction n with
  | zero => intro m l h; omega
  | succ n' ih =>
      intro m l hn hm
      match m with
      | m' + 1 =>
        cases hs : skipDots l with
        | nil => simp [specTokensF, hs]
        | cons c rest =>
            have hlen : rest.length + 1 ≤ l.length := by
              have := skipDots_length l
              rw [hs] at this
              simpa using this
            by_cases hd : c.isDigit = true
            · have h1 := readNum_consume c rest 0 hd
              simp only [specTokensF, hs]
              rw [if_pos hd, if_pos hd, ih m' _ (by omega) (by omega)]
            · simp only [specTokensF, hs]
              rw [if_neg hd, if_neg hd, ih m' rest (by omega) (by omega)]

theorem specTokens_nil : specTokens [] = [] := rfl

theorem specTokensF_succ (fuel : Nat) (l : List Char) :
    specTokensF (fuel + 1) l =
      match skipDots l with
      | [] => []
      | c :: rest =>
          if c.isDigit then
            intOfDigits (readNumAux (c :: rest) 0).1 ::
              specTokensF fuel (readNumAux (c :: rest) 0).2
          else signedCharVal c :: specTokensF fuel rest := rfl

theorem specTokens_step : ∀ l : List Char,
    (skipDots l = [] ∧ readTok l = (0, []) ∧ specTokens l = []) ∨
      specTokens l = (readTok l).1 :: specTokens (readTok l).2 := by
  intro l
  match l with
  | [] => exact Or.inl ⟨rfl, rfl, rfl⟩
  | c0 :: rest0 =>
    cases hs : skipDots (c0 :: rest0) with
    | nil =>
        refine Or.inl ⟨rfl, ?_, ?_⟩
        · simp [readTok, hs]
        · simp [specTokens, specTokensF, hs]
    | cons c rest =>
        right
        have hlen : rest.length + 1 ≤ rest0.length + 1 := by
          have := skipDots_length (c0 :: rest0)
          rw [hs] at this
          simpa using this
        by_cases hd : c.isDigit = true
        · have hr : readTok (c0 :: rest0) =
              (intOfDigits (readNumAux (c :: rest) 0).1, (readNumAux (c :: rest) 0).2) := by
            simp [readTok, hs, hd]
          have h1 := readNum_consume c rest 0 hd
          rw [hr]
          show specTokensF ((c0 :: rest0).length + 1) (c0 :: rest0) = _
          rw [specTokensF_succ, hs]
          dsimp only
          rw [if_pos hd]
          rw [specTokensF_irrel ((c0 :: rest0).length)
            ((readNumAux (c :: rest) 0).2.length + 1)
            (readNumAux (c :: rest) 0).2 (by simp; omega) (by omega)]
          rfl
        · have hr : readTok (c0 :: rest0) = (signedCharVal c, rest) := by
            simp [readTok, hs, hd]
          rw [hr]
          show specTokensF ((c0 :: rest0).length + 1) (c0 :: rest0) = _
          rw [specTokensF_succ, hs]
          dsimp only
          rw [if_neg hd]
          rw [specTokensF_irrel ((c0 :: rest0).length) (rest.length + 1) rest
            (by simp; omega) (by omega)]
          rfl

theorem padTo_self (l : List Int) : padTo l.length l = l := by simp [padTo]

theorem cmpPadded_nil_nil : cmpPadded [] [] = 0 := rfl

theorem cmpPadded_cons_cons (x y : Int) (xs ys : List Int) :
    cmpPadded (x :: xs) (y :: ys) =
      (if cmpInts x y = 0 then cmpPadded xs ys else cmpInts x y) := by
  unfold cmpPadded
  rw [show max (x :: xs).length (y :: ys).length = max xs.length ys.length + 1 by
    simp [Nat.succ_max_succ]]
  simp only [padTo, List.length_cons, Nat.succ_sub_succ, List.cons_append]
  simp only [cmpLex]

theorem cmpPadded_cons_nil (x : Int) (xs : List Int) :
    cmpPadded (x :: xs) [] =
      (if cmpInts x 0 = 0 then cmpPadded xs [] else cmpInts x 0) := by
  unfold cmpPadded
  simp only [List.length_cons, List.length_nil, Nat.max_zero, padTo,
    Nat.succ_sub_succ, Nat.sub_self, List.replicate, List.append_nil,
    List.cons_append, List.nil_append, Nat.sub_zero]
  simp only [cmpLex]

theorem cmpPadded_nil_cons (y : Int) (ys : List Int) :
    cmpPadded [] (y :: ys) =
      (if cmpInts 0 y = 0 then cmpPadded [] ys else cmpInts 0 y) := by
  unfold cmpPadded
  simp only [List.length_cons, List.length_nil, Nat.zero_max, padTo,
    Nat.succ_sub_succ, Nat.sub_self, List.replicate, List.append_nil,
    List.cons_append, List.nil_append, Nat.sub_zero]
  simp only [cmpLex]

theorem cmpVersionsF_nil_nil : ∀ f, cmpVersionsF f [] [] = 0 := by
  intro f
  cases f <;> simp [cmpVersionsF]

theorem cmpVersionsF_eq_padded : ∀ fuel (a b : List Char), a.length + b.length < fuel →
    cmpVersionsF fuel a b = cmpPadded (specTokens a) (specTokens b) := by
  intro fuel
  induction fuel with
  | zero => intro a b h; omega
  | succ n ih =>
      intro a b h
      by_cases hc : a = [] ∧ b = []
      · obtain ⟨ha, hb⟩ := hc
        subst ha; subst hb
        simp [cmpVersionsF, specTokens_nil, cmpPadded_nil_nil]
      · have hcb : ¬((decide (a = []) && decide (b = [])) = true) := by
          simpa [Bool.and_eq_true, decide_eq_true_iff] using hc
        simp only [cmpVersionsF]
        rw [if_neg hcb]
        rcases specTokens_step a with ⟨hsa, hra, hta⟩ | hta <;>
          rcases specTokens_step b with ⟨hsb, hrb, htb⟩ | htb
        · rw [hra, hrb, hta, htb, cmpPadded_nil_nil]
          have h0 : cmpInts ((0 : Int), ([] : List Char)).1 ((0 : Int), ([] : List Char)).1 = 0 := by
            simp [cmpInts]
          rw [if_pos h0]
          exact cmpVersionsF_nil_nil n
        · -- a exhausted, b steps
          have hbne : b ≠ [] := by
            intro hb0
            subst hb0
            rw [specTokens_nil] at htb
            cases htb
          have hdb := readTok_decrease b hbne
          rw [hra, hta, htb, cmpPadded_nil_cons]
          by_cases hr : cmpInts 0 (readTok b).1 = 0
          · rw [if_pos (show cmpInts ((0:Int), ([]:List Char)).1 (readTok b).1 = 0 from hr),
              if_pos hr]
            have := ih [] (readTok b).2 (by simp; omega)
            simpa using this
          · rw [if_neg (show ¬ cmpInts ((0:Int), ([]:List Char)).1 (readTok b).1 = 0 from hr),
              if_neg hr]
        · -- b exhausted, a steps
          have hane : a ≠ [] := by
            intro ha0
            subst ha0
            rw [specTokens_nil] at hta
            cases hta
          have hda := readTok_decrease a hane
          rw [hrb, htb, hta, cmpPadded_cons_nil]
          by_cases hr : cmpInts (readTok a).1 0 = 0
          · rw [if_pos (show cmpInts (readTok a).1 ((0:Int), ([]:List Char)).1 = 0 from hr),
              if_pos hr]
            have := ih (readTok a).2 [] (by simp; omega)
            simpa using this
          · rw [if_neg (show ¬ cmpInts (readTok a).1 ((0:Int), ([]:List Char)).1 = 0 from hr),
              if_neg hr]
        · -- both step
          have hane : a ≠ [] := by
            intro ha0
            subst ha0
            rw [specTokens_nil] at hta
            cases hta
          have hbne : b ≠ [] := by
            intro hb0
            subst hb0
            rw [specTokens_nil] at htb
            cases htb
          have hda := readTok_decrease a hane
          have hdb := readTok_decrease b hbne
          rw [hta, htb, cmpPadded_cons_cons]
          by_cases hr : cmpInts (readTok a).1 (readTok b).1 = 0
          · rw [if_pos hr, if_pos hr]
            exact ih (readTok a).2 (readTok b).2 (by omega)
          · rw [if_neg hr, if_neg hr]

theorem cmp_versions_eq_padded (a b : List Char) :
    cmp_versions a b = cmpPadded (specTokens a) (specTokens b) :=
  cmpVersionsF_eq_padded (a.length + b.length + 1) a b (by omega)

/-- Claim C2 amended: mport_version_cmp coincides, on every pair of
version strings, with the reference comparison whose parse locates the
comma, underscore and cut positions on the original string (truncating
at the last < and the last >, reading epoch and revision from after the
last comma and underscore) and whose base comparison tokenizes both
bases by the specification's walk, pads the shorter token sequence with
zeros, and lets the first non-equal pair decide. -/
theorem version_cmp_matches_padded_token_reference (a b : List Char) :
    refVersionCmp a b = mport_version_cmp a b := by
  simp only [refVersionCmp, mport_version_cmp]
  rw [cmp_versions_eq_padded]


theorem cmpInts_anti (a b : Int) : cmpInts a b = -cmpInts b a := by
  unfold cmpInts
  split_ifs <;> omega

theorem cmpVersionsF_anti : ∀ fuel a b, cmpVersionsF fuel a b = -cmpVersionsF fuel b a := by
  intro fuel
  induction fuel with
  | zero => intro a b; simp [cmpVersionsF]
  | succ n ih =>
      intro a b
      simp only [cmpVersionsF]
      rw [Bool.and_comm (decide (b = [])) (decide (a = []))]
      by_cases hc : (decide (a = []) && decide (b = [])) = true
      · rw [if_pos hc, if_pos hc]
        simp
      · rw [if_neg hc, if_neg hc]
        by_cases hr : cmpInts (readTok a).1 (readTok b).1 = 0
        · have hr' : cmpInts (readTok b).1 (readTok a).1 = 0 := by
            rw [cmpInts_anti, hr, neg_zero]
          rw [if_pos hr, if_pos hr']
          exact ih _ _
        · have hr' : ¬ cmpInts (readTok b).1 (readTok a).1 = 0 := by
            rw [cmpInts_anti]
            simpa using hr
          rw [if_neg hr, if_neg hr']
          exact cmpInts_anti _ _

/-- Claim C9: mport_version_cmp is antisymmetric - swapping the two
version strings negates the result. -/
theorem version_cmp_antisymmetric (a b : List Char) :
    mport_version_cmp a b = -mport_version_cmp b a := by
  unfold mport_version_cmp cmp_versions
  simp only
  rw [Nat.add_comm (parse_version b).version.length (parse_version a).version.length]
  by_cases he : cmpInts (parse_version a).epoch (parse_version b).epoch = 0
  · have he' : cmpInts (parse_version b).epoch (parse_version a).epoch = 0 := by
      rw [cmpInts_anti, he, neg_zero]
    rw [if_pos he, if_pos he']
    by_cases hv : cmpVersionsF ((parse_version a).version.length + (parse_version b).version.length + 1) (parse_version a).version (parse_version b).version = 0
    · have hv' : cmpVersionsF ((parse_version a).version.length + (parse_version b).version.length + 1) (parse_version b).version (parse_version a).version = 0 := by
        rw [cmpVersionsF_anti, hv, neg_zero]
      rw [if_pos hv, if_pos hv']
      exact cmpInts_anti _ _
    · have hv' : ¬ cmpVersionsF ((parse_version a).version.length + (parse_version b).version.length + 1) (parse_version b).version (parse_version a).version = 0 := by
        rw [cmpVersionsF_anti]
        simpa using hv
      rw [if_neg hv, if_neg hv']
      exact cmpVersionsF_anti _ _ _
  · have he' : ¬ cmpInts (parse_version b).epoch (parse_version a).epoch = 0 := by
      rw [cmpInts_anti]
      simpa using he
    rw [if_neg he, if_neg he']
    exact cmpInts_anti _ _



-- bundled invariant
theorem mem_append_snoc {x : String} {u0 t : List String} (Δ : List String)
    (h : x ∈ u0 ++ t) : x ∈ u0 ++ (t ++ Δ) := by
  simp only [List.mem_append] at h ⊢
  rcases h with h | h
  · exact Or.inl h
  · exact Or.inr (Or.inl h)

theorem orderOK_snoc (deps : String → List String) (m0 : String → Int)
    (u0 trace : List String) (n : String)
    (h : orderOK deps m0 u0 trace)
    (hn : ∀ d ∈ deps n, m0 d ≠ 0 → d ∈ u0 ++ trace) :
    orderOK deps m0 u0 (trace ++ [n]) := by
  intro t1 p t2 heq d hd hm
  rcases List.append_eq_append_iff.mp heq.symm with ⟨a', ha, hb⟩ | ⟨c', ha, hb⟩
  · cases a' with
    | nil =>
        simp only [List.nil_append] at hb
        injection hb with hp ht2
        subst hp
        have ht1 : t1 = trace := by simpa using ha.symm
        subst ht1
        exact hn d hd hm
    | cons q a'' =>
        injection hb with hp ht2
        subst hp
        have htr : trace = t1 ++ p :: a'' := by simpa using ha
        exact h t1 p a'' htr d hd hm
  · have hlen : 1 = c'.length + (t2.length + 1) := by
      have := congrArg List.length hb
      simpa using this
    have hc0 : c' = [] := List.length_eq_zero.mp (by omega)
    subst hc0
    simp only [List.nil_append] at hb
    injection hb with hp ht2
    subst hp
    have ht1 : t1 = trace := by simpa using ha
    subst ht1
    exact hn d hd hm

theorem lookup_mem (n : String) (v : Int) :
    ∀ cache : List (String × Int), List.lookup n cache = some v → (n, v) ∈ cache := by
  intro cache
  induction cache with
  | nil => intro h; simp [List.lookup] at h
  | cons kv rest ih =>
      obtain ⟨k, w⟩ := kv
      intro h
      simp only [List.lookup] at h
      cases heq : (n == k) with
      | true =>
          rw [heq] at h
          simp only [Option.some_inj] at h
          have hk : n = k := by
            exact eq_of_beq heq
          subst hk
          subst h
          exact List.mem_cons_self _ _
      | false =>
          rw [heq] at h
          exact List.mem_cons_of_mem _ (ih h)

theorem insertH_mem (x n : String) (h : List String) :
    x ∈ insertH n h → x = n ∨ x ∈ h := by
  unfold insertH
  split
  · exact fun hx => Or.inr hx
  · intro hx
    rcases List.mem_cons.mp hx with hx | hx
    · exact Or.inl hx
    · exact Or.inr hx

theorem insertH_nodup (n : String) (h : List String) (hn : h.Nodup) :
    (insertH n h).Nodup := by
  unfold insertH
  split
  · exact hn
  · rename_i hmem
    exact List.nodup_cons.mpr ⟨hmem, hn⟩

theorem getMatch_trace (m0 : String → Int) (u0 : List String) (n : String)
    (st : UpdState) : (getMatch m0 u0 n st).2.trace = st.trace := by
  unfold getMatch
  split <;> rfl

theorem getMatch_inv (deps : String → List String) (m0 : String → Int)
    (u0 : List String) (n : String) (st : UpdState)
    (hI : UpdInv deps m0 u0 st) : UpdInv deps m0 u0 (getMatch m0 u0 n st).2 := by
  obtain ⟨hH, hC, hO, hN⟩ := hI
  unfold getMatch
  split
  · exact ⟨hH, hC, hO, hN⟩
  · refine ⟨hH, ?_, hO, hN⟩
    intro nv hnv hz
    rcases List.mem_cons.mp hnv with hnv | hnv
    · subst hnv
      simp only at hz
      unfold indexCheckSem at hz
      split at hz
      · rename_i hin
        exact Or.inl hin
      · exact Or.inr hz
    · exact hC nv hnv hz

theorem getMatch_zero (deps : String → List String) (m0 : String → Int)
    (u0 : List String) (n : String) (st : UpdState)
    (hI : UpdInv deps m0 u0 st) (hz : (getMatch m0 u0 n st).1 = 0) :
    n ∈ u0 ++ st.trace ∨ m0 n = 0 := by
  obtain ⟨hH, hC, hO, hN⟩ := hI
  unfold getMatch at hz
  split at hz
  · rename_i v hv
    exact hC (n, v) (lookup_mem n v st.cache hv) (by simpa using hz)
  · simp only at hz
    unfold indexCheckSem at hz
    split at hz
    · rename_i hin
      exact Or.inl hin
    · exact Or.inr hz

theorem doUpdate_inv (deps : String → List String) (m0 : String → Int)
    (u0 : List String) (n : String) (st : UpdState)
    (hI : UpdInv deps m0 u0 st)
    (hdeps : ∀ d ∈ deps n, m0 d ≠ 0 → d ∈ u0 ++ st.trace) :
    UpdInv deps m0 u0 (doUpdate n st) ∧
      (doUpdate n st).trace = st.trace ++ [n] := by
  obtain ⟨hH, hC, hO, hN⟩ := hI
  refine ⟨⟨?_, ?_, ?_, ?_⟩, rfl⟩
  · intro x hx
    rcases insertH_mem x n st.h hx with hx | hx
    · subst hx
      simp [doUpdate, List.mem_append]
    · exact mem_append_snoc [n] (hH x hx)
  · intro nv hnv hz
    rcases hC nv hnv hz with hm | hm
    · exact Or.inl (mem_append_snoc [n] hm)
    · exact Or.inr hm
  · exact orderOK_snoc deps m0 u0 st.trace n hO hdeps
  · exact insertH_nodup n st.h hN

/-- Helper: advancing the call counter leaves the trace unchanged. -/
theorem bump_trace (st : UpdState) : (bump st).trace = st.trace := rfl

/-- Helper: the run invariant ignores the call counter. -/
theorem bump_inv (deps : String → List String) (m0 : String → Int)
    (u0 : List String) (st : UpdState) (h : UpdInv deps m0 u0 st) :
    UpdInv deps m0 u0 (bump st) := h

/-- Helper: when the oracle grants every call, one mport_update call is
exactly the success action on the counter-advanced state. -/
theorem tryUpdate_success (updOk : Nat → Bool) (hOK : ∀ n, updOk n = true)
    (name : String) (st : UpdState) :
    tryUpdate updOk name st = (true, doUpdate name (bump st)) := by
  unfold tryUpdate
  rw [hOK st.calls]
  simp

/-- Postcondition of the dependency loop, under the assumption that
every mport_update call in the run succeeds. -/
theorem depLoop_post (deps : String → List String) (m0 : String → Int)
    (u0 : List String) (updOk : Nat → Bool) (hOK : ∀ n, updOk n = true)
    (rec : String → UpdState → Option (Nat × UpdState))
    (hrec : ∀ d st₀ r₀ st₀', UpdInv deps m0 u0 st₀ → rec d st₀ = some (r₀, st₀') →
      UpdPost deps m0 u0 d st₀ st₀') :
    ∀ (l : List String) acc st r st', UpdInv deps m0 u0 st →
      depLoop m0 u0 updOk rec l acc st = some (r, st') →
      UpdInv deps m0 u0 st' ∧ (∃ Δ, st'.trace = st.trace ++ Δ) ∧
        (∀ d ∈ l, m0 d ≠ 0 → d ∈ u0 ++ st'.trace) := by
  intro l
  induction l with
  | nil =>
      intro acc st r st' hI hrun
      simp only [depLoop] at hrun
      injection hrun with h
      injection h with h1 h2
      subst h2
      exact ⟨hI, ⟨[], by simp⟩, by simp⟩
  | cons dep rest ih =>
      intro acc st r st' hI hrun
      simp only [depLoop] at hrun
      split at hrun
      · rename_i hmem
        obtain ⟨hI2, ⟨Δ, hΔ⟩, hdeps2⟩ := ih acc st r st' hI hrun
        refine ⟨hI2, ⟨Δ, hΔ⟩, ?_⟩
        intro d hd hm
        rcases List.mem_cons.mp hd with hd | hd
        · subst hd
          rw [hΔ]
          exact mem_append_snoc Δ (hI.1 d hmem)
        · exact hdeps2 d hd hm
      · rename_i hmem
        split at hrun
        · cases hrun
        · rename_i r0 st1 hrec_eq
          have hpost := hrec dep st r0 st1 hI hrec_eq
          obtain ⟨hI1, ⟨Δ1, hΔ1⟩, hself1, hdeps1⟩ := hpost
          have hIp := getMatch_inv deps m0 u0 dep st1 hI1
          have hptr := getMatch_trace m0 u0 dep st1
          split at hrun
          · rename_i hnz
            rw [tryUpdate_success updOk hOK dep (getMatch m0 u0 dep st1).2] at hrun
            simp only [Prod.fst, Prod.snd, if_true] at hrun
            have hbtr : (bump (getMatch m0 u0 dep st1).2).trace = st1.trace := by
              rw [bump_trace, hptr]
            have hdeps_dep : ∀ d' ∈ deps dep, m0 d' ≠ 0 →
                d' ∈ u0 ++ (bump (getMatch m0 u0 dep st1).2).trace := by
              rw [hbtr]
              exact hdeps1
            have hdo := doUpdate_inv deps m0 u0 dep (bump (getMatch m0 u0 dep st1).2)
              (bump_inv deps m0 u0 _ hIp) hdeps_dep
            obtain ⟨hI2, ⟨Δ2, hΔ2⟩, hdeps2⟩ := ih _ _ r st' hdo.1 hrun
            refine ⟨hI2, ?_, ?_⟩
            · refine ⟨Δ1 ++ [dep] ++ Δ2, ?_⟩
              rw [hΔ2, hdo.2, hbtr, hΔ1]
              simp
            · intro d hd hm
              rcases List.mem_cons.mp hd with hd | hd
              · subst hd
                rw [hΔ2]
                apply mem_append_snoc
                rw [hdo.2]
                simp [List.mem_append]
              · exact hdeps2 d hd hm
          · rename_i hz
            obtain ⟨hI2, ⟨Δ2, hΔ2⟩, hdeps2⟩ := ih _ _ r st' hIp hrun
            refine ⟨hI2, ?_, ?_⟩
            · refine ⟨Δ1 ++ Δ2, ?_⟩
              rw [hΔ2, hptr, hΔ1]
              simp
            · intro d hd hm
              rcases List.mem_cons.mp hd with hd | hd
              · subst hd
                rw [hΔ2]
                apply mem_append_snoc
                rw [hptr]
                exact hself1 hm
              · exact hdeps2 d hd hm

/-- Postcondition of mport_update_down, under the assumption that every
mport_update call in the run succeeds. -/
theorem updateDown_post (deps : String → List String) (m0 : String → Int)
    (u0 : List String) (updOk : Nat → Bool) (hOK : ∀ n, updOk n = true) :
    ∀ fuel pack st r st',
    UpdInv deps m0 u0 st →
    updateDown deps m0 u0 updOk fuel pack st = some (r, st') →
    UpdPost deps m0 u0 pack st st' := by
  intro fuel
  induction fuel with
  | zero =>
      intro pack st r st' hI hrun
      simp [updateDown] at hrun
  | succ n ih =>
      intro pack st r st' hI hrun
      simp only [updateDown] at hrun
      split at hrun
      · rename_i hnil
        split at hrun
        · rename_i hmem
          injection hrun with h
          injection h with h1 h2
          subst h2
          refine ⟨hI, ⟨[], by simp⟩, fun _ => hI.1 pack hmem, ?_⟩
          rw [hnil]
          simp
        · rename_i hmem
          have hIp := getMatch_inv deps m0 u0 pack st hI
          have hptr := getMatch_trace m0 u0 pack st
          split at hrun
          · rename_i hnz
            rw [tryUpdate_success updOk hOK pack (getMatch m0 u0 pack st).2] at hrun
            simp only [Prod.fst, Prod.snd, if_true] at hrun
            injection hrun with h
            injection h with h1 h2
            subst h2
            have hbtr : (bump (getMatch m0 u0 pack st).2).trace = st.trace := by
              rw [bump_trace, hptr]
            have hvac : ∀ d ∈ deps pack, m0 d ≠ 0 →
                d ∈ u0 ++ (bump (getMatch m0 u0 pack st).2).trace := by
              intro d hd
              rw [hnil] at hd
              cases hd
            have hdo := doUpdate_inv deps m0 u0 pack (bump (getMatch m0 u0 pack st).2)
              (bump_inv deps m0 u0 _ hIp) hvac
            refine ⟨hdo.1, ⟨[pack], by rw [hdo.2, hbtr]⟩, ?_, ?_⟩
            · intro hm
              rw [hdo.2]
              simp [List.mem_append]
            · intro d hd
              rw [hnil] at hd
              cases hd
          · rename_i hz
            injection hrun with h
            injection h with h1 h2
            subst h2
            refine ⟨hIp, ⟨[], by rw [hptr]; simp⟩, ?_, ?_⟩
            · intro hm
              have h0 : (getMatch m0 u0 pack st).1 = 0 := by
                by_contra hcon
                exact hz hcon
              rcases getMatch_zero deps m0 u0 pack st hI h0 with hin | hm0
              · rw [hptr]
                exact hin
              · exact absurd hm0 hm
            · intro d hd
              rw [hnil] at hd
              cases hd
      · rename_i hne
        split at hrun
        · cases hrun
        · rename_i r0 st1 hloop
          have hrec : ∀ d st₀ r₀ st₀', UpdInv deps m0 u0 st₀ →
              updateDown deps m0 u0 updOk n d st₀ = some (r₀, st₀') →
              UpdPost deps m0 u0 d st₀ st₀' :=
            fun d st₀ r₀ st₀' h1 h2 => ih d st₀ r₀ st₀' h1 h2
          have hl := depLoop_post deps m0 u0 updOk hOK _ hrec (deps pack) 0 st r0 st1 hI hloop
          obtain ⟨hI1, ⟨Δ1, hΔ1⟩, hdeps1⟩ := hl
          have hIp := getMatch_inv deps m0 u0 pack st1 hI1
          have hptr := getMatch_trace m0 u0 pack st1
          split at hrun
          · rename_i hnz
            rw [tryUpdate_success updOk hOK pack (getMatch m0 u0 pack st1).2] at hrun
            simp only [Prod.fst, Prod.snd, if_true] at hrun
            injection hrun with h
            injection h with h1 h2
            subst h2
            have hbtr : (bump (getMatch m0 u0 pack st1).2).trace = st1.trace := by
              rw [bump_trace, hptr]
            have hdeps_p : ∀ d ∈ deps pack, m0 d ≠ 0 →
                d ∈ u0 ++ (bump (getMatch m0 u0 pack st1).2).trace := by
              rw [hbtr]
              exact hdeps1
            have hdo := doUpdate_inv deps m0 u0 pack (bump (getMatch m0 u0 pack st1).2)
              (bump_inv deps m0 u0 _ hIp) hdeps_p
            refine ⟨hdo.1, ⟨Δ1 ++ [pack], ?_⟩, ?_, ?_⟩
            · rw [hdo.2, hbtr, hΔ1]
              simp
            · intro hm
              rw [hdo.2]
              simp [List.mem_append]
            · intro d hd hm
              rw [hdo.2]
              apply mem_append_snoc
              rw [hbtr]
              exact hdeps1 d hd hm
          · rename_i hz
            injection hrun with h
            injection h with h1 h2
            subst h2
            refine ⟨hIp, ⟨Δ1, by rw [hptr, hΔ1]⟩, ?_, ?_⟩
            · intro hm
              have h0 : (getMatch m0 u0 pack st1).1 = 0 := by
                by_contra hcon
                exact hz hcon
              rcases getMatch_zero deps m0 u0 pack st1 hI1 h0 with hin | hm0
              · rw [hptr]
                exact hin
              · exact absurd hm0 hm
            · intro d hd hm
              rw [hptr]
              exact hdeps1 d hd hm

/-- Claim C7 amended: in a finished mport_update_down run in which
every mport_update call succeeds (hOK) - and whose fuel suffices, i.e.
the dependency graph is acyclic; with a cycle the model returns none,
the data error - the trace of updates satisfies the ordering guarantee:
whenever a package was updated, every one of its down-depends that
needed an upgrade at run start had already been updated earlier in the
run (or was current at run start); and the processed set holds each
package at most once.  The remaining hypotheses state that the incoming
state is consistent (processed names already upgraded, cached no-update
answers truthful, prior trace ordered, processed set duplicate-free),
all trivially true for the empty state mport_upgrade starts from. -/
theorem update_down_ordering (deps : String → List String) (m0 : String → Int)
    (u0 : List String) (updOk : Nat → Bool) (fuel : Nat) (pack : String)
    (st : UpdState) (r : Nat) (st' : UpdState)
    (hOK : ∀ n, updOk n = true)
    (hH : ∀ x ∈ st.h, x ∈ u0 ++ st.trace)
    (hC : ∀ nv ∈ st.cache, nv.2 = 0 → nv.1 ∈ u0 ++ st.trace ∨ m0 nv.1 = 0)
    (hO : orderOK deps m0 u0 st.trace)
    (hN : st.h.Nodup)
    (hrun : updateDown deps m0 u0 updOk fuel pack st = some (r, st')) :
    orderOK deps m0 u0 st'.trace ∧ st'.h.Nodup := by
  have hpost := updateDown_post deps m0 u0 updOk hOK fuel pack st r st'
    ⟨hH, hC, hO, hN⟩ hrun
  exact ⟨hpost.1.2.2.1, hpost.1.2.2.2⟩

/-- Claim C7 counterexample: mport_update (mport.h: download, then
mport_update_primative) can fail, and part_002 merely logs a failed
dependency update and still updates the parent afterwards (lines
386-394, then 427-439 with the cached match).  With app depending on
lib, both needing an upgrade, and the first two update calls (lib, and
its cache-driven retry) failing while the third (app) succeeds, the run
updates app although lib - a down-dependency that needed an upgrade -
was never updated: the claimed unconditional ordering is false of the
program. -/
theorem update_down_ordering_counterexample :
    (∃ st', updateDown (fun n => if n = "app" then ["lib"] else []) (fun _ => 1) []
        (fun n => decide (2 ≤ n)) 5 "app" ⟨[], [], [], 0⟩ = some (1, st') ∧
      st'.trace = ["app"]) ∧
    ¬ orderOK (fun n => if n = "app" then ["lib"] else []) (fun _ => 1) [] ["app"] := by
  constructor
  · exact ⟨⟨["app"], [("app", 1), ("lib", 1)], ["app"], 3⟩, by decide, by decide⟩
  · intro h
    have := h [] "app" [] rfl "lib" (by simp) (by decide)
    simp at this

/-- Witness for the amended C7 on a two-package graph (app depends on
lib, both needing an upgrade, every update call succeeding): the run
updates lib first (twice, due to the stale cache, faithfully to the
source) and app last. -/
theorem update_down_ordering_witness :
    ∃ r st', updateDown (fun n => if n = "app" then ["lib"] else []) (fun _ => 1) []
        (fun _ => true) 5 "app" ⟨[], [], [], 0⟩ = some (r, st') ∧
      orderOK (fun n => if n = "app" then ["lib"] else []) (fun _ => 1) [] st'.trace ∧
        st'.h.Nodup := by
  refine ⟨3, ⟨["app", "lib"], [("app", 1), ("lib", 1)], ["lib", "lib", "app"], 3⟩,
    by decide, ?_⟩
  exact update_down_ordering (fun n => if n = "app" then ["lib"] else []) (fun _ => 1) []
    (fun _ => true) 5 "app" ⟨[], [], [], 0⟩ 3
    ⟨["app", "lib"], [("app", 1), ("lib", 1)], ["lib", "lib", "app"], 3⟩
    (fun _ => rfl)
    (by simp) (by simp)
    (by intro t1 p t2 h d hd hm; simp at h)
    (by simp) (by decide)

end Mport
